import Mathlib

/-!
Verification of the `multipla` plugin registry (files `multipla.py` and
`pluggable_package.py`) against its natural-language specification.

The Python code is shallowly embedded:
* Python `dict` / `collections.OrderedDict` become association lists
  (`List (String × α)`); `OrderedDict` order is the list order, and
  `dict` internal order is never observed by the code, so one model serves
  both.  Keys are unique in every state reachable by the class's
  operations, and all helper operations below agree with Python's
  dictionaries on unique-keyed lists.
* Ratings are integers (`rate` accepts any number; only ordering matters).
* A Python method that can raise becomes either an `Except`-valued
  function (when the `raise` happens before any mutation of `self`) or a
  `state × Option error` pair (for `__delitem__`, whose second `del` could
  in principle raise after the first one mutated the state).
* `sorted(..., key=lambda kv: -kv[1])` is Python's stable sort applied to
  the relation `-kv.2 ≤ -kv'.2`; a stable sort's output is uniquely
  determined by the input order and the (total, transitive) comparison,
  so it is modelled by the stable `List.insertionSort`.
* The per-instance locks serialize each method call; the embedding is the
  resulting sequential semantics, one method call at a time.
-/

/-- Lookup in an association list: the value of the first pair whose key
matches, i.e. Python `d[key]` returning `None`-like absence as `none`. -/
def alistGet {A : Type} : List (String × A) → String → Option A
  | [], _ => none
  | kv :: rest, k => if kv.1 = k then some kv.2 else alistGet rest k

/-- Python `key in d`. -/
def alistHas {A : Type} (l : List (String × A)) (k : String) : Bool :=
  (alistGet l k).isSome

/-- Python `d[key] = value`: replace the value in place if the key is
present, otherwise append the new pair at the end. -/
def alistInsert {A : Type} : List (String × A) → String → A → List (String × A)
  | [], k, v => [(k, v)]
  | kv :: rest, k, v => if kv.1 = k then (k, v) :: rest else kv :: alistInsert rest k v

/-- Python `del d[key]` (on a key known to be present): drop the pairs
with that key, keeping every other pair in order. -/
def alistErase {A : Type} (l : List (String × A)) (k : String) : List (String × A) :=
  l.filter (fun kv => ¬ kv.1 = k)

/-- Python `d.setdefault(key, v)`: keep the list unchanged if the key is
present, otherwise append `(key, v)` at the end. -/
def alistSetdefault {A : Type} : List (String × A) → String → A → List (String × A)
  | [], k, v => [(k, v)]
  | kv :: rest, k, v => if kv.1 = k then kv :: rest else kv :: alistSetdefault rest k v

/-- Python `dict(pairs)`: build a dict from a pair sequence, later
occurrences of a key overriding earlier ones. -/
def dictOfList (l : List (String × Int)) : List (String × Int) :=
  l.foldl (fun acc kv => alistInsert acc kv.1 kv.2) []

/-- `OrderedDict.update(other)`: existing keys keep their position and get
the new value, new keys are appended in `other`'s order. -/
def ratingsUpdate (r upd : List (String × Int)) : List (String × Int) :=
  upd.foldl (fun acc kv => alistInsert acc kv.1 kv.2) r

deriving instance DecidableEq for Except

/-- The error conditions raised by the Python code.  `notFound`,
`unexpectedKey` and `alreadyPlugged` are `KeyError`s; `outOfRange` and
`empty` are `ValueError`s. -/
inductive Err (V : Type) where
  | notFound (key : String)
  | unexpectedKey (keys : List String)
  | alreadyPlugged (key : String) (existing : V)
  | outOfRange
  | empty
deriving DecidableEq

/-- `True` exactly for the `Err` constructors that model a Python
`KeyError` (the class caught by `except KeyError:`). -/
def Err.isKeyError {V : Type} : Err V → Bool
  | .notFound _ => true
  | .unexpectedKey _ => true
  | .alreadyPlugged _ _ => true
  | .outOfRange => false
  | .empty => false

/-- `RatedDict`'s state: `self._dict` (a `dict`) and `self._ratings`
(an `OrderedDict` whose order is the rating order). -/
structure RatedDict (V : Type) where
  _dict : List (String × V)
  _ratings : List (String × Int)
deriving DecidableEq

/-- `RatedDict.__init__`: both tables start empty. -/
def RatedDict.init {V : Type} : RatedDict V := ⟨[], []⟩

/-- `RatedDict._setitem_`: `self._dict[key] = value` then
`self._ratings.setdefault(key, 0)`.  `__setitem__` is this under the
instance lock. -/
def RatedDict._setitem_ {V : Type} (d : RatedDict V) (key : String) (value : V) :
    RatedDict V :=
  { _dict := alistInsert d._dict key value,
    _ratings := alistSetdefault d._ratings key 0 }

/-- `RatedDict.__getitem__`: `self._dict[key]`, raising `KeyError` when
absent. -/
def RatedDict.getitem {V : Type} (d : RatedDict V) (key : String) : Except (Err V) V :=
  match alistGet d._dict key with
  | some v => .ok v
  | none => .error (.notFound key)

/-- `RatedDict.__delitem__`: `del self._dict[key]` then
`del self._ratings[key]`.  The first `del` raises before mutating when the
key is absent; the second could raise with `_dict` already mutated, so the
result carries the post-call state together with the optional error. -/
def RatedDict.delitem {V : Type} (d : RatedDict V) (key : String) :
    RatedDict V × Option (Err V) :=
  match alistGet d._dict key with
  | none => (d, some (.notFound key))
  | some _ =>
    let d1 : RatedDict V := { d with _dict := alistErase d._dict key }
    match alistGet d1._ratings key with
    | none => (d1, some (.notFound key))
    | some _ => ({ d1 with _ratings := alistErase d._ratings key }, none)

/-- The comparison used by `sorted(self._ratings.items(),
key=lambda kv: -kv[1])`: ascending in the negated rating. -/
def rateLE (kv kv' : String × Int) : Prop := -kv.2 ≤ -kv'.2

instance : DecidableRel rateLE := fun a b => inferInstanceAs (Decidable (-a.2 ≤ -b.2))

instance : IsTotal (String × Int) rateLE :=
  ⟨fun a b => le_total (-a.2) (-b.2)⟩

instance : IsTrans (String × Int) rateLE :=
  ⟨fun _ _ _ h h' => le_trans h h'⟩

/-- `RatedDict.rate`: build `ratings = dict(updates)`, raise `KeyError`
when some supplied key is not an existing entry, otherwise merge the
ratings in and stably re-sort the whole table by descending rating.
Python's `sorted` is a stable sort, modelled by `List.insertionSort`. -/
def RatedDict.rate {V : Type} (d : RatedDict V) (updates : List (String × Int)) :
    Except (Err V) (RatedDict V) :=
  let ratings := dictOfList updates
  let unexpected := (ratings.map (·.1)).filter (fun k => !(alistHas d._dict k))
  if unexpected = [] then
    .ok { d with _ratings := List.insertionSort rateLE (ratingsUpdate d._ratings ratings) }
  else
    .error (.unexpectedKey unexpected)

/-- The loop of `RatedDict.top`: take `n` keys from the rating order,
pairing each with its entry value; an exhausted iterator becomes the
`ValueError` (`outOfRange`), a missing entry the `KeyError` of
`self._dict[key]`. -/
def RatedDict.topAux {V : Type} (dict : List (String × V)) :
    List (String × Int) → Nat → Except (Err V) (List (String × V))
  | _, 0 => .ok []
  | [], _ + 1 => .error .outOfRange
  | kv :: rest, n + 1 =>
    match alistGet dict kv.1 with
    | none => .error (.notFound kv.1)
    | some v =>
      match topAux dict rest n with
      | .ok tl => .ok ((kv.1, v) :: tl)
      | .error e => .error e

/-- `RatedDict.top(amount)`: `amount = None` means all entries; otherwise
the loop runs `range(amount)`, i.e. `amount.toNat` times (a negative
`amount` yields an empty range). -/
def RatedDict.top {V : Type} (d : RatedDict V) (amount : Option Int) :
    Except (Err V) (List (String × V)) :=
  match amount with
  | none => RatedDict.topAux d._dict d._ratings d._ratings.length
  | some a => RatedDict.topAux d._dict d._ratings a.toNat

/-- `RatedDict.highest_rated`: the value of the first key in rating
order; an empty table raises `ValueError` (`empty`). -/
def RatedDict.highest_rated {V : Type} (d : RatedDict V) : Except (Err V) V :=
  match d._ratings with
  | [] => .error .empty
  | kv :: _ =>
    match alistGet d._dict kv.1 with
    | some v => .ok v
    | none => .error (.notFound kv.1)

/-- `MultiPlugAdapter`: a `RatedDict` holding the implementations of one
extension point, carrying the extension-point `name`. -/
structure MultiPlugAdapter (V : Type) extends RatedDict V where
  name : String
deriving DecidableEq

/-- `MultiPlugAdapter.__init__`. -/
def MultiPlugAdapter.init {V : Type} (name : String) : MultiPlugAdapter V :=
  { name, _dict := [], _ratings := [] }

/-- `MultiPlugAdapter.plug_in`: look the implementation id up first; if it
is present raise `KeyError` carrying the existing value, otherwise insert
via `_setitem_`. -/
def MultiPlugAdapter.plug_in {V : Type} (a : MultiPlugAdapter V) (name : String)
    (plug : V) : Except (Err V) (MultiPlugAdapter V) :=
  match alistGet a._dict name with
  | some value => .error (.alreadyPlugged name value)
  | none => .ok { a with toRatedDict := a.toRatedDict._setitem_ name plug }

/-- `Multipla`: a `RatedDict` whose values are `MultiPlugAdapter`s,
carrying the registry `name`. -/
structure Multipla (V : Type) extends RatedDict (MultiPlugAdapter V) where
  name : String
deriving DecidableEq

/-- `Multipla.__init__`. -/
def Multipla.init {V : Type} (name : String) : Multipla V :=
  { name, _dict := [], _ratings := [] }

/-- `Multipla.switch_on`: return the adapter for `name`, creating (and
storing) an empty one when there is none yet. -/
def Multipla.switch_on {V : Type} (m : Multipla V) (name : String) :
    Multipla V × MultiPlugAdapter V :=
  match alistGet m._dict name with
  | some adapter => (m, adapter)
  | none =>
    let adapter : MultiPlugAdapter V := MultiPlugAdapter.init name
    ({ m with toRatedDict := m.toRatedDict._setitem_ name adapter }, adapter)

/-- `Multipla.get`: `try: return self[name].highest_rated except KeyError:
return default`.  Only `KeyError`s are converted to the default (`None`
when the caller supplied none); the `ValueError` of `highest_rated` on an
empty adapter propagates. -/
def Multipla.get {V : Type} (m : Multipla V) (name : String) (default : V) :
    Except (Err V) V :=
  let attempt : Except (Err V) V :=
    match alistGet m._dict name with
    | none => .error (.notFound name)
    | some adapter => adapter.toRatedDict.highest_rated
  match attempt with
  | .error e => if e.isKeyError then .ok default else .error e
  | .ok v => .ok v

/-- The process-wide `_register` of `multipla.power_up`, mapping registry
names to `Multipla` instances.  Object identity of the created instances
is modelled by an allocation counter: each `Multipla(name)` construction
yields a fresh identity `next`. -/
structure Register where
  reg : List (String × Nat)
  next : Nat
deriving DecidableEq

/-- The initial module state: `_register = dict()`. -/
def Register.init : Register := ⟨[], 0⟩

/-- `multipla.power_up(name)`: under the module lock, return the
registered instance for `name`, creating and registering a fresh one when
absent.  (Subscribing the instance to the discovery working sets is
external I/O and is not part of the registry state.) -/
def power_up (st : Register) (name : String) : Register × Nat :=
  match alistGet st.reg name with
  | some i => (st, i)
  | none => ({ reg := alistInsert st.reg name st.next, next := st.next + 1 }, st.next)

/-- The character map that `pluggable_package._get` builds with
`maketrans` from the slash-dash pair to two underscores: `/` and `-` map
to `_`, everything else to itself. -/
def maketrans_slash_dash (c : Char) : Char :=
  if c = '/' ∨ c = '-' then '_' else c

/-- The `name.translate(...)` call of `pluggable_package._get`, applying
`maketrans_slash_dash` to every character. -/
def translateName (name : String) : String :=
  ⟨name.data.map maketrans_slash_dash⟩

/-- `pluggable_package._get(name, default, package)`: translate the name,
look it up in the package's registered dict, fall back to `default` when
one was supplied (`default is not _DEFAULT`), re-raise the `KeyError`
otherwise. -/
def _get {V : Type} (registered : List (String × V)) (name : String)
    (default : Option V) : Except (Err V) V :=
  let name := translateName name
  match alistGet registered name with
  | some v => .ok v
  | none =>
    match default with
    | some d => .ok d
    | none => .error (.notFound name)

/-- A `set`/`delete` call on a `RatedDict`, for stating the key-set
invariant over operation sequences. -/
inductive Op (V : Type) where
  | set (key : String) (value : V)
  | delete (key : String)

/-- Run one call: `set` is `__setitem__`; `delete` is `__delitem__`,
whose post-call state is kept whether or not it raised. -/
def applyOp {V : Type} (d : RatedDict V) : Op V → RatedDict V
  | .set k v => d._setitem_ k v
  | .delete k => (d.delitem k).1

theorem alistGet_insert {A : Type} (l : List (String × A)) (k : String) (v : A)
    (k' : String) :
    alistGet (alistInsert l k v) k' = if k = k' then some v else alistGet l k' := by
  induction l with
  | nil => simp [alistInsert, alistGet]
  | cons kv rest ih =>
    by_cases hk : kv.1 = k
    · rw [alistInsert, if_pos hk]
      by_cases h2 : k = k' <;> simp [alistGet, hk, h2]
    · rw [alistInsert, if_neg hk]
      by_cases h3 : kv.1 = k'
      · have h2 : ¬ k = k' := fun hh => hk (h3.trans hh.symm)
        simp [alistGet, h3, h2]
      · simp [alistGet, h3, ih]

theorem alistGet_setdefault {A : Type} (l : List (String × A)) (k : String) (v : A)
    (k' : String) :
    alistGet (alistSetdefault l k v) k' =
      if k = k' then some ((alistGet l k).getD v) else alistGet l k' := by
  induction l with
  | nil => simp [alistSetdefault, alistGet]
  | cons kv rest ih =>
    by_cases hk : kv.1 = k
    · rw [alistSetdefault, if_pos hk]
      by_cases h2 : k = k' <;> simp [alistGet, hk, h2]
    · rw [alistSetdefault, if_neg hk]
      by_cases h3 : kv.1 = k'
      · have h2 : ¬ k = k' := fun hh => hk (h3.trans hh.symm)
        simp [alistGet, h3, h2]
      · simp [alistGet, h3, hk, ih]

theorem alistGet_erase {A : Type} (l : List (String × A)) (k : String) (k' : String) :
    alistGet (alistErase l k) k' = if k = k' then none else alistGet l k' := by
  induction l with
  | nil => simp [alistErase, alistGet]
  | cons kv rest ih =>
    by_cases hk : kv.1 = k
    · have : alistErase (kv :: rest) k = alistErase rest k := by
        simp [alistErase, List.filter_cons, hk]
      rw [this, ih]
      by_cases h2 : k = k' <;> simp [alistGet, hk, h2]
    · have : alistErase (kv :: rest) k = kv :: alistErase rest k := by
        simp [alistErase, List.filter_cons, hk]
      rw [this]
      by_cases h3 : kv.1 = k'
      · have h2 : ¬ k = k' := fun hh => hk (h3.trans hh.symm)
        simp [alistGet, h3, h2]
      · simp [alistGet, h3, ih]

theorem alistHas_insert {A : Type} (l : List (String × A)) (k : String) (v : A)
    (k' : String) :
    alistHas (alistInsert l k v) k' = (decide (k = k') || alistHas l k') := by
  by_cases h : k = k' <;> simp [alistHas, alistGet_insert, h]

theorem alistHas_setdefault {A : Type} (l : List (String × A)) (k : String) (v : A)
    (k' : String) :
    alistHas (alistSetdefault l k v) k' = (decide (k = k') || alistHas l k') := by
  by_cases h : k = k' <;> simp [alistHas, alistGet_setdefault, h]

theorem alistHas_erase {A : Type} (l : List (String × A)) (k : String) (k' : String) :
    alistHas (alistErase l k) k' = (!(decide (k = k')) && alistHas l k') := by
  by_cases h : k = k' <;> simp [alistHas, alistGet_erase, h]

theorem mem_map_fst_of_alistHas {A : Type} (l : List (String × A)) (k : String)
    (h : alistHas l k = true) : k ∈ l.map (·.1) := by
  induction l with
  | nil => simp [alistHas, alistGet] at h
  | cons kv rest ih =>
    by_cases h1 : kv.1 = k
    · simp [h1]
    · simp only [alistHas, alistGet, h1, if_neg] at h
      simp [ih h]

theorem alistHas_foldl_insert (u : List (String × Int)) (acc : List (String × Int))
    (k : String) :
    alistHas (u.foldl (fun a kv => alistInsert a kv.1 kv.2) acc) k = true ↔
      (alistHas acc k = true ∨ ∃ r, (k, r) ∈ u) := by
  induction u generalizing acc with
  | nil => simp
  | cons kv rest ih =>
    simp only [List.foldl_cons, ih, alistHas_insert, Bool.or_eq_true, decide_eq_true_eq]
    constructor
    · rintro (⟨h | h⟩ | h)
      · exact .inr ⟨kv.2, by cases kv; simp_all⟩
      · exact .inl h
      · obtain ⟨r, hr⟩ := h
        exact .inr ⟨r, by simp [hr]⟩
    · rintro (h | ⟨r, hr⟩)
      · exact .inl (.inr h)
      · rcases List.mem_cons.mp hr with h | h
        · exact .inl (.inl (by cases h; rfl))
        · exact .inr ⟨r, h⟩

theorem alistHas_dictOfList (u : List (String × Int)) (k : String) (r : Int)
    (h : (k, r) ∈ u) : alistHas (dictOfList u) k = true := by
  unfold dictOfList
  exact (alistHas_foldl_insert u [] k).mpr (.inr ⟨r, h⟩)

theorem rate_ok_ratings {V : Type} (d d' : RatedDict V) (u : List (String × Int))
    (h : d.rate u = .ok d') :
    d'._ratings = List.insertionSort rateLE (ratingsUpdate d._ratings (dictOfList u)) := by
  unfold RatedDict.rate at h
  by_cases hc : ((dictOfList u).map (·.1)).filter (fun k => !(alistHas d._dict k)) = []
  · simp only [hc, if_pos] at h
    injection h with h
    rw [← h]
  · simp only [hc, if_neg] at h
    simp at h

/-- C3: `rate` with any key not already present in the entries fails with
`UnexpectedKey`; the check precedes the rating-table update in the source,
so the error branch performs no mutation at all (the functional embedding
returns no successor state on error). -/
theorem rate_unexpected_key {V : Type} (d : RatedDict V) (updates : List (String × Int))
    (k : String) (r : Int)
    (hmem : (k, r) ∈ updates) (habs : alistHas d._dict k = false) :
    ∃ ks, d.rate updates = .error (.unexpectedKey ks) ∧ k ∈ ks := by
  have hk : k ∈ (dictOfList updates).map (·.1) :=
    mem_map_fst_of_alistHas _ k (alistHas_dictOfList updates k r hmem)
  have hmemf : k ∈ ((dictOfList updates).map (·.1)).filter
      (fun k => !(alistHas d._dict k)) :=
    List.mem_filter.mpr ⟨hk, by simp [habs]⟩
  have hne : ((dictOfList updates).map (·.1)).filter
      (fun k => !(alistHas d._dict k)) ≠ [] :=
    List.ne_nil_of_mem hmemf
  refine ⟨_, ?_, hmemf⟩
  unfold RatedDict.rate
  simp [hne]

/-- Witness for C3: rating the never-inserted key `zzz` (together with the
valid key `a`) fails with `UnexpectedKey` naming `zzz`. -/
theorem rate_unexpected_key_witness :
    ∃ ks, RatedDict.rate (⟨[("a", 1)], [("a", 0)]⟩ : RatedDict Int)
        [("a", 2), ("zzz", 3)] = .error (.unexpectedKey ks) ∧ "zzz" ∈ ks :=
  rate_unexpected_key _ _ "zzz" 3 (by decide) (by decide)

/-- C4: after a successful `rate`, the rating order is descending in the
rating value, and any two entries that are tied after the update keep the
relative order they had in the table being sorted (the pre-call order, as
`OrderedDict.update` keeps existing keys in place): Python's stable
`sorted` is modelled by the stable `insertionSort`. -/
theorem rate_sorted_stable {V : Type} (d d' : RatedDict V) (updates : List (String × Int))
    (k1 k2 : String) (r : Int)
    (h : d.rate updates = .ok d')
    (hpair : [(k1, r), (k2, r)].Sublist (ratingsUpdate d._ratings (dictOfList updates))) :
    List.Pairwise (fun a b : String × Int => b.2 ≤ a.2) d'._ratings
      ∧ [(k1, r), (k2, r)].Sublist d'._ratings := by
  have hr := rate_ok_ratings d d' updates h
  constructor
  · rw [hr]
    exact (List.sorted_insertionSort rateLE _).imp (fun hab => by
      simpa [rateLE] using hab)
  · rw [hr]
    exact List.pair_sublist_insertionSort (le_refl (-r)) hpair

/-- The concrete stability scenario of C4: entries `a`, `b`, `c` inserted
in that order (`a` before `c`). -/
def rdStable : RatedDict Int :=
  ((RatedDict.init._setitem_ "a" 10)._setitem_ "b" 20)._setitem_ "c" 30

/-- The state after `rate({a: 5, b: 3, c: 5})` on `rdStable`. -/
def rdStableSorted : RatedDict Int :=
  ⟨[("a", 10), ("b", 20), ("c", 30)], [("a", 5), ("c", 5), ("b", 3)]⟩

/-- Witness for C4: after `rate({a: 5, b: 3, c: 5})` the order is
descending, the tied `a` stays before `c`, and `top()` lists `a`, then
`c`, then `b`. -/
theorem rate_sorted_stable_witness :
    RatedDict.rate rdStable [("a", 5), ("b", 3), ("c", 5)] = .ok rdStableSorted
    ∧ List.Pairwise (fun a b : String × Int => b.2 ≤ a.2) rdStableSorted._ratings
    ∧ [("a", (5 : Int)), ("c", 5)].Sublist rdStableSorted._ratings
    ∧ RatedDict.top rdStableSorted none = .ok [("a", 10), ("c", 30), ("b", 20)] :=
  ⟨by decide,
   (rate_sorted_stable rdStable rdStableSorted [("a", 5), ("b", 3), ("c", 5)]
      "a" "c" 5 (by decide) (by decide)).1,
   (rate_sorted_stable rdStable rdStableSorted [("a", 5), ("b", 3), ("c", 5)]
      "a" "c" 5 (by decide) (by decide)).2,
   by decide⟩

theorem sameKeys_applyOp {V : Type} (d : RatedDict V) (op : Op V)
    (h : ∀ k, alistHas d._dict k = alistHas d._ratings k) :
    ∀ k, alistHas (applyOp d op)._dict k = alistHas (applyOp d op)._ratings k := by
  intro k
  cases op with
  | set key v =>
    simp [applyOp, RatedDict._setitem_, alistHas_insert, alistHas_setdefault, h k]
  | delete key =>
    simp only [applyOp]
    unfold RatedDict.delitem
    cases hget : alistGet d._dict key with
    | none => exact h k
    | some w =>
      have hr : alistHas d._ratings key = true := by
        rw [← h key]; simp [alistHas, hget]
      obtain ⟨w', hw'⟩ : ∃ w', alistGet d._ratings key = some w' := by
        simpa [alistHas, Option.isSome_iff_exists] using hr
      simp only [hw']
      simp [alistHas_erase, h k]

/-- C5: starting from the constructor's empty state, every finite sequence
of `set`/`delete` calls preserves equality of the entry-key set and the
rating-key set (quantifying over all sequences covers the state after each
call of any longer sequence). -/
theorem set_delete_same_keys {V : Type} (ops : List (Op V)) (k : String) :
    alistHas (ops.foldl applyOp RatedDict.init)._dict k
      = alistHas (ops.foldl applyOp RatedDict.init)._ratings k := by
  suffices h : ∀ d : RatedDict V, (∀ k, alistHas d._dict k = alistHas d._ratings k) →
      ∀ k, alistHas (ops.foldl applyOp d)._dict k
        = alistHas (ops.foldl applyOp d)._ratings k by
    exact h RatedDict.init (fun _ => rfl) k
  induction ops with
  | nil => intro d hd; exact hd
  | cons op rest ih =>
    intro d hd k
    exact ih (applyOp d op) (sameKeys_applyOp d op hd) k

/-- C6: `plug_in` on an occupied implementation id fails with
`AlreadyPlugged` carrying the existing value (the lookup precedes the
raise and nothing is mutated); on a free id it succeeds, and a second
`plug_in` with the same id then fails, the first value still in place. -/
theorem plug_in_conflict {V : Type} (a : MultiPlugAdapter V) (id : String) (v1 v2 : V)
    (h : alistGet a._dict id = none) :
    (∀ (b : MultiPlugAdapter V) (w v' : V), alistGet b._dict id = some w →
        b.plug_in id v' = .error (.alreadyPlugged id w))
    ∧ ∃ a', a.plug_in id v1 = .ok a'
        ∧ a'.plug_in id v2 = .error (.alreadyPlugged id v1)
        ∧ alistGet a'._dict id = some v1 := by
  constructor
  · intro b w v' hb
    unfold MultiPlugAdapter.plug_in
    rw [hb]
  · refine ⟨{ a with toRatedDict := a.toRatedDict._setitem_ id v1 }, ?_, ?_, ?_⟩
    · unfold MultiPlugAdapter.plug_in
      rw [h]
    · unfold MultiPlugAdapter.plug_in
      simp [RatedDict._setitem_, alistGet_insert]
    · simp [RatedDict._setitem_, alistGet_insert]

/-- Witness for C6: on a fresh adapter, plugging `x` in succeeds once and
fails the second time with `AlreadyPlugged` carrying the first value. -/
theorem plug_in_conflict_witness :
    ∃ a', (MultiPlugAdapter.init "socket" : MultiPlugAdapter Int).plug_in "x" 1 = .ok a'
      ∧ a'.plug_in "x" 2 = .error (.alreadyPlugged "x" 1)
      ∧ alistGet a'._dict "x" = some 1 :=
  (plug_in_conflict (MultiPlugAdapter.init "socket") "x" 1 2 (by decide)).2

/-- C8: `set` stores the new value under the key; the key's rating becomes
its old rating when it had one and `0` otherwise, and every other key's
entry and rating are untouched. -/
theorem setitem_spec {V : Type} (d : RatedDict V) (k : String) (v : V) (k' : String) :
    alistGet (d._setitem_ k v)._dict k' = (if k = k' then some v else alistGet d._dict k')
    ∧ alistGet (d._setitem_ k v)._ratings k' =
        (if k = k' then some ((alistGet d._ratings k).getD 0) else alistGet d._ratings k') :=
  ⟨alistGet_insert d._dict k v k', alistGet_setdefault d._ratings k 0 k'⟩

theorem power_up_hit (st : Register) (name : String) (j : Nat)
    (h : alistGet st.reg name = some j) : power_up st name = (st, j) := by
  unfold power_up
  rw [h]

theorem power_up_miss (st : Register) (name : String)
    (h : alistGet st.reg name = none) :
    power_up st name =
      ({ reg := alistInsert st.reg name st.next, next := st.next + 1 }, st.next) := by
  unfold power_up
  rw [h]

theorem power_up_binds (st : Register) (name : String) :
    alistGet (power_up st name).1.reg name = some (power_up st name).2 := by
  cases hget : alistGet st.reg name with
  | some j => rw [power_up_hit st name j hget]; exact hget
  | none =>
    rw [power_up_miss st name hget, alistGet_insert]
    simp

theorem power_up_preserves (st : Register) (nm n : String) (i : Nat)
    (h : alistGet st.reg n = some i) : alistGet (power_up st nm).1.reg n = some i := by
  cases hget : alistGet st.reg nm with
  | some j => rw [power_up_hit st nm j hget]; exact h
  | none =>
    rw [power_up_miss st nm hget, alistGet_insert]
    by_cases he : nm = n
    · rw [← he] at h
      rw [h] at hget
      cases hget
    · rw [if_neg he]
      exact h

/-- Repeated `power_up` calls from arbitrary call sites. -/
def powerUpMany (st : Register) (names : List String) : Register :=
  names.foldl (fun s n => (power_up s n).1) st

theorem powerUpMany_preserves (st : Register) (names : List String) (n : String) (i : Nat)
    (h : alistGet st.reg n = some i) :
    alistGet (powerUpMany st names).reg n = some i := by
  induction names generalizing st with
  | nil => exact h
  | cons nm rest ih =>
    exact ih (power_up st nm).1 (power_up_preserves st nm n i h)

theorem power_up_ret_of_lookup (st : Register) (name : String) (i : Nat)
    (h : alistGet st.reg name = some i) : (power_up st name).2 = i := by
  rw [power_up_hit st name i h]

/-- C9: `power_up` allocates the registry instance lazily on the first
request (the returned identity is the registered one, or a fresh `next`
when the name is unbound), records it under the requested name without
disturbing any other binding, and every later `power_up` of the same
name — however many calls to other (or the same) names intervene — returns
the identical instance: bindings are never removed. -/
theorem power_up_spec (st : Register) (name : String) (others : List String) (n : String) :
    (power_up st name).2 = (alistGet st.reg name).getD st.next
    ∧ alistGet (power_up st name).1.reg n =
        (if name = n then some (power_up st name).2 else alistGet st.reg n)
    ∧ (power_up (powerUpMany (power_up st name).1 others) name).2
        = (power_up st name).2 := by
  refine ⟨?_, ?_, ?_⟩
  · cases hget : alistGet st.reg name with
    | some j => rw [power_up_hit st name j hget]; rfl
    | none => rw [power_up_miss st name hget]; rfl
  · cases hget : alistGet st.reg name with
    | some j =>
      rw [power_up_hit st name j hget]
      by_cases he : name = n
      · rw [if_pos he, ← he, hget]
      · rw [if_neg he]
    | none =>
      rw [power_up_miss st name hget, alistGet_insert]
  · exact power_up_ret_of_lookup _ name _
      (powerUpMany_preserves (power_up st name).1 others name _ (power_up_binds st name))

theorem topAux_ok {V : Type} (dict : List (String × V)) (r : List (String × Int)) (n : Nat)
    (hsub : ∀ kv ∈ r, alistHas dict kv.1 = true) (hn : n ≤ r.length) :
    ∃ l, RatedDict.topAux dict r n = .ok l := by
  induction r generalizing n with
  | nil =>
    have h0 : n = 0 := Nat.le_zero.mp hn
    subst h0
    exact ⟨[], rfl⟩
  | cons kv rest ih =>
    cases n with
    | zero => exact ⟨[], rfl⟩
    | succ m =>
      have hh : alistHas dict kv.1 = true := hsub kv (by simp)
      obtain ⟨v, hv⟩ : ∃ v, alistGet dict kv.1 = some v := by
        simpa [alistHas, Option.isSome_iff_exists] using hh
      obtain ⟨tl, htl⟩ := ih m (fun kv h => hsub kv (List.mem_cons_of_mem _ h))
        (Nat.succ_le_succ_iff.mp hn)
      exact ⟨(kv.1, v) :: tl, by simp [RatedDict.topAux, hv, htl]⟩

theorem topAux_err {V : Type} (dict : List (String × V)) (r : List (String × Int)) (n : Nat)
    (hsub : ∀ kv ∈ r, alistHas dict kv.1 = true) (hn : r.length < n) :
    RatedDict.topAux dict r n = .error .outOfRange := by
  induction r generalizing n with
  | nil =>
    cases n with
    | zero => cases hn
    | succ m => rfl
  | cons kv rest ih =>
    cases n with
    | zero => cases hn
    | succ m =>
      have hh : alistHas dict kv.1 = true := hsub kv (by simp)
      obtain ⟨v, hv⟩ : ∃ v, alistGet dict kv.1 = some v := by
        simpa [alistHas, Option.isSome_iff_exists] using hh
      have hrec := ih m (fun kv h => hsub kv (List.mem_cons_of_mem _ h))
        (Nat.succ_lt_succ_iff.mp hn)
      simp [RatedDict.topAux, hv, hrec]

/-- C10: `top(n)` for a negative `n` iterates `range(n)`, which is empty,
so it returns the empty list without error, on a table of any size; and
(given every rated key has an entry, the maintained invariant) the
`OutOfRange` failure happens exactly when the requested amount exceeds the
number of rated entries. -/
theorem top_spec {V : Type} (d : RatedDict V) (n : Int) (hn : n < 0) :
    d.top (some n) = .ok []
    ∧ ((∀ kv ∈ d._ratings, alistHas d._dict kv.1 = true) →
        ∀ m : Int, (d.top (some m) = .error .outOfRange ↔ d._ratings.length < m.toNat)) := by
  constructor
  · have h0 : n.toNat = 0 := Int.toNat_of_nonpos hn.le
    simp [RatedDict.top, h0, RatedDict.topAux]
  · intro hsub m
    constructor
    · intro he
      by_contra hlt
      push_neg at hlt
      obtain ⟨l, hl⟩ := topAux_ok d._dict d._ratings m.toNat hsub hlt
      rw [RatedDict.top] at he
      rw [hl] at he
      cases he
    · intro hlt
      rw [RatedDict.top]
      exact topAux_err d._dict d._ratings m.toNat hsub hlt

/-- Witness for C10: on a one-entry table, `top(-1)` returns `[]`. -/
theorem top_spec_witness :
    (-1 : Int) < 0
    ∧ RatedDict.top (⟨[("a", 1)], [("a", 0)]⟩ : RatedDict Int) (some (-1)) = .ok [] :=
  ⟨by decide, (top_spec (⟨[("a", 1)], [("a", 0)]⟩ : RatedDict Int) (-1) (by decide)).1⟩

/-- A registry whose adapter for `codecs` exists but holds no
implementation (created by `switch_on`). -/
def mplaEmptyAdapter : Multipla Int := ((Multipla.init "plugins").switch_on "codecs").1

/-- An adapter for `codecs` holding one implementation `impl` of value 42. -/
def adapterFull : MultiPlugAdapter Int :=
  { name := "codecs", _dict := [("impl", 42)], _ratings := [("impl", 0)] }

/-- A registry whose `codecs` adapter is `adapterFull`. -/
def mplaFull : Multipla Int :=
  { name := "plugins", _dict := [("codecs", adapterFull)], _ratings := [("codecs", 0)] }

/-- C1 counterexample: on a registry whose `codecs` adapter exists but is
empty, `get("codecs", default=7)` does not return the supplied default; it
fails with the `Empty`-derived `ValueError` of `highest_rated`, which the
`except KeyError` of `get` does not catch. -/
theorem multipla_get_empty_adapter_cex :
    Multipla.get mplaEmptyAdapter "codecs" 7 = .error .empty
    ∧ Multipla.get mplaEmptyAdapter "codecs" 7 ≠ .ok 7 :=
  ⟨by decide, by decide⟩

/-- C1 (amended): `get` returns the highest-rated value of an existing
non-empty adapter; returns the default (Python `None` standing in when the
caller supplied none) when the adapter does not exist, so a `NotFound`
failure never escapes; and when the adapter exists but is empty it fails
with the `Empty`-derived error regardless of any supplied default. -/
theorem multipla_get_spec {V : Type} (m : Multipla V) (name : String) (default : V) :
    (alistGet m._dict name = none → m.get name default = .ok default)
    ∧ (∀ a : MultiPlugAdapter V, alistGet m._dict name = some a →
        a._ratings = [] → m.get name default = .error .empty)
    ∧ (∀ (a : MultiPlugAdapter V) (k : String) (r : Int) (v : V),
        alistGet m._dict name = some a → a._ratings.head? = some (k, r) →
        alistGet a._dict k = some v → m.get name default = .ok v) := by
  refine ⟨?_, ?_, ?_⟩
  · intro hnone
    simp [Multipla.get, hnone, Err.isKeyError]
  · intro a ha hrat
    simp [Multipla.get, ha, RatedDict.highest_rated, hrat, Err.isKeyError]
  · intro a k r v ha hhead hv
    cases hcase : a.toRatedDict._ratings with
    | nil => rw [hcase] at hhead; cases hhead
    | cons kv tl =>
      rw [hcase] at hhead
      have hkv : kv = (k, r) := by
        simpa using hhead
      subst hkv
      simp [Multipla.get, ha, RatedDict.highest_rated, hcase, hv]

/-- Witness for the amended C1: the three branches at concrete
registries — no adapter, empty adapter, adapter with one implementation. -/
theorem multipla_get_spec_witness :
    Multipla.get (Multipla.init "plugins" : Multipla Int) "codecs" 7 = .ok 7
    ∧ Multipla.get mplaEmptyAdapter "codecs" 7 = .error .empty
    ∧ Multipla.get mplaFull "codecs" 7 = .ok 42 :=
  ⟨(multipla_get_spec (Multipla.init "plugins") "codecs" 7).1 (by decide),
   (multipla_get_spec mplaEmptyAdapter "codecs" 7).2.1
     (MultiPlugAdapter.init "codecs") (by decide) (by decide),
   (multipla_get_spec mplaFull "codecs" 7).2.2 adapterFull "impl" 0 42
     (by decide) (by decide) (by decide)⟩

theorem maketrans_idem (c : Char) :
    maketrans_slash_dash (maketrans_slash_dash c) = maketrans_slash_dash c := by
  by_cases h : c = '/' ∨ c = '-'
  · rcases h with h | h <;> subst h <;> decide
  · simp [maketrans_slash_dash, h]

theorem translateName_idem (s : String) :
    translateName (translateName s) = translateName s := by
  show String.mk (List.map maketrans_slash_dash (List.map maketrans_slash_dash s.data))
      = String.mk (List.map maketrans_slash_dash s.data)
  rw [List.map_map]
  exact congrArg String.mk (List.map_congr_left (fun c _ => maketrans_idem c))

/-- C2 counterexample: `!` is not one of the translated characters.  The
translation leaves `a!b` unchanged, so with an implementation registered
under `a_b` the lookup of `a!b` fails instead of finding it. -/
theorem canonicalization_bang_cex :
    translateName "a!b" ≠ "a_b"
    ∧ _get [("a_b", (1 : Int))] "a!b" none = .error (.notFound "a!b") :=
  ⟨by decide, by decide⟩

/-- C2 (amended): the lookup path of `pluggable_package.get` translates
exactly `/` and `-` to `_`, leaving every other character (including
`! # $ & ^ + .`) unchanged; the translation is idempotent, and a name
whose translation is registered resolves to the registered value — in
particular `a/b-c` and `a_b_c` resolve to the implementation registered
under `a_b_c`. -/
theorem canonicalization_spec {V : Type} (c : Char) (s : String)
    (registered : List (String × V)) (v : V)
    (hc : ¬(c = '/' ∨ c = '-'))
    (hreg : alistGet registered (translateName s) = some v) :
    maketrans_slash_dash '/' = '_'
    ∧ maketrans_slash_dash '-' = '_'
    ∧ maketrans_slash_dash c = c
    ∧ translateName (translateName s) = translateName s
    ∧ _get registered s none = .ok v := by
  refine ⟨by decide, by decide, by simp [maketrans_slash_dash, hc],
    translateName_idem s, ?_⟩
  simp only [_get]
  rw [hreg]

/-- Witness for the amended C2: with `a_b_c` registered, both the
punctuated name and the already-canonical name resolve to it. -/
theorem canonicalization_spec_witness :
    _get [("a_b_c", (1 : Int))] "a/b-c" none = .ok 1
    ∧ _get [("a_b_c", (1 : Int))] "a_b_c" none = .ok 1 :=
  ⟨(canonicalization_spec '.' "a/b-c" [("a_b_c", (1 : Int))] 1
      (by decide) (by decide)).2.2.2.2,
   (canonicalization_spec '.' "a_b_c" [("a_b_c", (1 : Int))] 1
      (by decide) (by decide)).2.2.2.2⟩

/-- C7 counterexample: `MultiPlugAdapter` has no `plug_out`; its only
removal operation is the inherited `__delitem__`, and on an absent
implementation id that operation raises `KeyError` rather than silently
doing nothing. -/
theorem plug_out_missing_cex :
    (RatedDict.delitem (MultiPlugAdapter.init "socket" : MultiPlugAdapter Int).toRatedDict
        "missing").2 = some (.notFound "missing")
    ∧ (RatedDict.delitem (MultiPlugAdapter.init "socket" : MultiPlugAdapter Int).toRatedDict
        "missing").2 ≠ none :=
  ⟨by decide, by decide⟩

/-- C7 (amended): removal on a `MultiPlugAdapter` goes through the
inherited strict delete: a present id is removed from entries and ratings
with no error; an absent id fails with `NotFound` and mutates nothing.
The hypothesis is the entries/ratings key-set agreement at the deleted id,
which every reachable state satisfies. -/
theorem adapter_delete_spec {V : Type} (a : MultiPlugAdapter V) (id : String)
    (h : alistHas a._dict id = alistHas a._ratings id) :
    RatedDict.delitem a.toRatedDict id =
      if alistHas a._dict id = true then
        ({ a.toRatedDict with
           _dict := alistErase a._dict id,
           _ratings := alistErase a._ratings id }, none)
      else (a.toRatedDict, some (.notFound id)) := by
  unfold RatedDict.delitem
  cases hget : alistGet a.toRatedDict._dict id with
  | none =>
    have hf : alistHas a._dict id = false := by simp [alistHas, hget]
    rw [if_neg (by simp [hf])]
  | some w =>
    have hhas : alistHas a._dict id = true := by simp [alistHas, hget]
    have hr : alistHas a._ratings id = true := by rw [← h]; exact hhas
    obtain ⟨w', hw'⟩ : ∃ w', alistGet a.toRatedDict._ratings id = some w' := by
      simpa [alistHas, Option.isSome_iff_exists] using hr
    simp only [hw']
    rw [if_pos hhas]

/-- An adapter holding the single implementation `x`. -/
def mpaOne : MultiPlugAdapter Int :=
  { name := "socket", _dict := [("x", 1)], _ratings := [("x", 0)] }

/-- Witness for the amended C7: deleting the present `x` empties both
tables without error; deleting the absent `y` fails with `NotFound` and
leaves the state unchanged. -/
theorem adapter_delete_spec_witness :
    RatedDict.delitem mpaOne.toRatedDict "x" = (⟨[], []⟩, none)
    ∧ RatedDict.delitem mpaOne.toRatedDict "y"
        = (mpaOne.toRatedDict, some (.notFound "y")) := by
  constructor
  · have h := adapter_delete_spec mpaOne "x" (by decide)
    rw [if_pos (by decide)] at h
    exact h.trans (by decide)
  · have h := adapter_delete_spec mpaOne "y" (by decide)
    rw [if_neg (by decide)] at h
    exact h
